import Mathlib

/-!
Shallow embedding of the resume/vacancy comparison utility, translated from
`src/preprocessor.py` (class `DataPreprocessor`) and `src/comparator.py`
(class `DataComparator`).

External collaborators (the NLTK tokenizer, the NLTK part-of-speech tagger,
the NLTK stopword lists, and the spacy pipeline) are third-party libraries,
not code of this repository; they are modelled as abstract parameters
(`NLTK`, `Spacy`).  The sklearn vectorizer and cosine similarity used by
`matchSimilarity` are modelled from their documented behavior, with the
square root left abstract.  Python exceptions are modelled with `Except`.
Percentages are modelled with `ℚ`; Python `round(x, 2)` is modelled as
round-half-to-even at two decimal places.
-/

/-- Python runtime failures that the embedded code can produce. -/
inductive PyError where
  | zeroDivision
  | unboundLocal
  | valueError
  deriving DecidableEq

/-- Characters matched by the regex class `\s` in Python (Unicode mode):
ASCII whitespace, the separator control characters, and the Unicode space
code points. -/
def isPySpace (c : Char) : Bool :=
  decide ((9 ≤ c.toNat ∧ c.toNat ≤ 13) ∨ c.toNat = 32 ∨
    (28 ≤ c.toNat ∧ c.toNat ≤ 31) ∨ c.toNat = 133 ∨ c.toNat = 160 ∨
    c.toNat = 5760 ∨ (8192 ≤ c.toNat ∧ c.toNat ≤ 8202) ∨ c.toNat = 8232 ∨
    c.toNat = 8233 ∨ c.toNat = 8239 ∨ c.toNat = 8287 ∨ c.toNat = 12288)

/-- Characters matched by `a-zA-Z` (Latin letters). -/
def isLatinLetter (c : Char) : Bool :=
  decide ((97 ≤ c.toNat ∧ c.toNat ≤ 122) ∨ (65 ≤ c.toNat ∧ c.toNat ≤ 90))

/-- Characters matched by `а-яА-Я` (Cyrillic letters without `ё`/`Ё`,
exactly as in the source regex). -/
def isCyrillicLetter (c : Char) : Bool :=
  decide ((1072 ≤ c.toNat ∧ c.toNat ≤ 1103) ∨ (1040 ≤ c.toNat ∧ c.toNat ≤ 1071))

/-- Characters matched by `0-9`. -/
def isDigitChar (c : Char) : Bool :=
  decide (48 ≤ c.toNat ∧ c.toNat ≤ 57)

/-- Character class kept by `re.sub(r"[^а-яА-Я0-9\s\/]", "", text)`. -/
def isRuAllowed (c : Char) : Bool :=
  isCyrillicLetter c || isDigitChar c || isPySpace c || c == '/'

/-- Character class kept by `re.sub(r"[^a-zA-Z0-9\s\/]", "", text)`. -/
def isEnAllowed (c : Char) : Bool :=
  isLatinLetter c || isDigitChar c || isPySpace c || c == '/'

/-- Python `str.lower`, character by character, on the alphabets the
pipeline works with (ASCII and Cyrillic); other characters are unchanged. -/
def pyToLowerChar (c : Char) : Char :=
  if 65 ≤ c.toNat ∧ c.toNat ≤ 90 then Char.ofNat (c.toNat + 32)
  else if 1040 ≤ c.toNat ∧ c.toNat ≤ 1071 then Char.ofNat (c.toNat + 32)
  else if c.toNat = 1025 then Char.ofNat 1105
  else c

/-- Python `str.lower` on strings. -/
def str_lower (s : String) : String :=
  String.mk (s.data.map pyToLowerChar)

/-- Embedding of `DataPreprocessor._clean_text`: for `lang="ru"` drop every
character outside `[а-яА-Я0-9\s/]`, for `lang="en"` drop every character
outside `[a-zA-Z0-9\s/]`, for any other language neither substitution runs;
afterwards `text.replace("/", " ")` runs unconditionally. -/
def clean_text (text : String) (lang : String) : String :=
  let step1 := if lang = "ru" then text.data.filter isRuAllowed else text.data
  let step2 := if lang = "en" then step1.filter isEnAllowed else step1
  String.mk (step2.map (fun c => if c = '/' then ' ' else c))

/-- Embedding of `DataPreprocessor._filter_token_tag`: keep the token of
every tagged pair whose tag belongs to the filter tag list (the `str(...)`
cast in the source is the identity here). -/
def filter_token_tag (tagged_token_list : List (String × String))
    (filter_tag_list : List String) : List String :=
  (tagged_token_list.filter (fun t => t.2 ∈ filter_tag_list)).map (fun t => t.1)

/-- Embedding of `DataPreprocessor._unique_tokens`: lowercase each token and
append it to the accumulator unless it is already present. -/
def unique_tokens (token_list : List String) : List String :=
  token_list.foldl
    (fun unique_token_list x =>
      if str_lower x ∈ unique_token_list then unique_token_list
      else unique_token_list ++ [str_lower x]) []

/-- Recursive reformulation of `unique_tokens` used in proofs: emit the
lowercase form of each token whose lowercase form was not seen before. -/
def uniqFrom : List String → List String → List String
  | _, [] => []
  | seen, x :: xs =>
    if str_lower x ∈ seen then uniqFrom seen xs
    else str_lower x :: uniqFrom (str_lower x :: seen) xs

/-- Abstract interface of the NLTK collaborator: `word_tokenize`, `pos_tag`,
and the two stopword lists. -/
structure NLTK where
  word_tokenize : String → List String
  pos_tag : List String → List (String × String)
  stopwords_russian : List String
  stopwords_english : List String

/-- Embedding of `DataPreprocessor._nltk_stopwords_removal`.  The local
`stop_words` is only assigned inside the two language branches; for any
other language the list comprehension touches an unbound local as soon as
the token list is non-empty, while an empty token list never evaluates the
condition and yields `[]`. -/
def nltk_stopwords_removal (ctx : NLTK) (token_list : List String)
    (lang : String) : Except PyError (List String) :=
  if lang = "ru" then .ok (token_list.filter (fun w => w ∉ ctx.stopwords_russian))
  else if lang = "en" then .ok (token_list.filter (fun w => w ∉ ctx.stopwords_english))
  else if token_list = [] then .ok []
  else .error .unboundLocal

/-- Token stream of the NLTK pipeline after cleaning, tokenization and
tagging (`pos_tag(word_tokenize(clean_text(data)))`). -/
def nltk_tagged (ctx : NLTK) (data lang : String) : List (String × String) :=
  ctx.pos_tag (ctx.word_tokenize (clean_text data lang))

/-- NLTK pipeline of `DataPreprocessor.nltk_keywords` up to and including
stopword removal (everything before `_unique_tokens`). -/
def nltk_prelim (ctx : NLTK) (data lang : String) : Except PyError (List String) :=
  nltk_stopwords_removal ctx
    (filter_token_tag (nltk_tagged ctx data lang) ["NNP", "NN", "VBP", "JJ"]) lang

/-- Embedding of `DataPreprocessor.nltk_keywords`: clean, tokenize, tag,
filter by the tag allow-list `["NNP", "NN", "VBP", "JJ"]`, remove stopwords,
deduplicate. -/
def nltk_keywords (ctx : NLTK) (data lang : String) : Except PyError (List String) :=
  match nltk_prelim ctx data lang with
  | .error e => .error e
  | .ok keywords => .ok (unique_tokens keywords)

/-- Abstract interface of a loaded spacy language model: tokenization with
part-of-speech tags, plus the model's stopword list. -/
structure Spacy where
  tokenize_tag : String → List (String × String)
  stop_words : List String

/-- Language model selected by `spacy_keywords` (`ru_core_news_sm` for
`"ru"`, `en_core_web_sm` for `"en"`). -/
def spacy_nlp (ru_nlp en_nlp : Spacy) (lang : String) : Spacy :=
  if lang = "ru" then ru_nlp else en_nlp

/-- Token stream of the spacy pipeline after cleaning and tagging. -/
def spacy_tagged (ru_nlp en_nlp : Spacy) (data lang : String) : List (String × String) :=
  (spacy_nlp ru_nlp en_nlp lang).tokenize_tag (clean_text data lang)

/-- Embedding of `DataPreprocessor.spacy_keywords`: clean, tokenize and tag
with the selected model, filter by the tag allow-list `["NNP"]`, remove the
model's stopwords, deduplicate.  For a language outside `{"ru", "en"}` the
local `nlp` is never assigned and its first use fails. -/
def spacy_keywords (ru_nlp en_nlp : Spacy) (data lang : String) :
    Except PyError (List String) :=
  if lang = "ru" ∨ lang = "en" then
    let nlp := spacy_nlp ru_nlp en_nlp lang
    let keywords := filter_token_tag (spacy_tagged ru_nlp en_nlp data lang) ["NNP"]
    let keywords := keywords.filter (fun w => w ∉ nlp.stop_words)
    .ok (unique_tokens keywords)
  else .error .unboundLocal

/-- Round a rational to the nearest integer, ties to the even integer
(Python `round` semantics). -/
def roundHalfEven (q : ℚ) : ℤ :=
  if q - ⌊q⌋ < 1 / 2 then ⌊q⌋
  else if 1 / 2 < q - ⌊q⌋ then ⌊q⌋ + 1
  else if ⌊q⌋ % 2 = 0 then ⌊q⌋ else ⌊q⌋ + 1

/-- Python `round(x, 2)`. -/
def round2 (x : ℚ) : ℚ :=
  (roundHalfEven (x * 100) : ℚ) / 100

/-- Embedding of `DataComparator.matchKeywords`: extract both keyword lists,
count the vacancy keywords present among the resume keywords, divide by the
number of vacancy keywords (a plain `/`, which raises `ZeroDivisionError`
when the vacancy keyword list is empty), times 100, rounded to 2 places. -/
def matchKeywords (ctx : NLTK) (resume_data vacancy_data lang : String) :
    Except PyError ℚ :=
  match nltk_keywords ctx resume_data lang, nltk_keywords ctx vacancy_data lang with
  | .error e, _ => .error e
  | .ok _, .error e => .error e
  | .ok keywords_resume, .ok keywords_vacancy =>
    let vacancy_keywords_in_resume_count :=
      (keywords_vacancy.filter (fun w => w ∈ keywords_resume)).length
    let vacancy_keywords_count := keywords_vacancy.length
    if vacancy_keywords_count = 0 then .error .zeroDivision
    else .ok (round2
      ((vacancy_keywords_in_resume_count : ℚ) / (vacancy_keywords_count : ℚ) * 100))

/-- Characters matched by `\w` in the vectorizer token pattern, on the
alphabets the pipeline works with. -/
def isWordChar (c : Char) : Bool :=
  isLatinLetter c || isDigitChar c || isCyrillicLetter c || c == '_' ||
    c == 'Ё' || c == 'ё'

/-- Maximal runs of characters satisfying `p`, with an accumulator holding
the current run in reverse. -/
def runsByAux (p : Char → Bool) : List Char → List Char → List (List Char)
  | [], acc => if acc = [] then [] else [acc.reverse]
  | c :: cs, acc =>
    if p c then runsByAux p cs (c :: acc)
    else if acc = [] then runsByAux p cs []
    else acc.reverse :: runsByAux p cs []

/-- Maximal runs of characters of a string satisfying `p`, as strings. -/
def runsBy (p : Char → Bool) (s : String) : List String :=
  (runsByAux p s.data []).map String.mk

/-- Tokenization performed by the sklearn `CountVectorizer` with default
settings, modelled from the documented behavior of the external
vectorization library: the document is lowercased and the tokens are the
maximal runs of word characters of length at least two. -/
def cvTokenize (doc : String) : List String :=
  (runsBy isWordChar (str_lower doc)).filter (fun t => 2 ≤ t.length)

/-- First-occurrence deduplication used to build the fitted vocabulary. -/
def dedupStr (l : List String) : List String :=
  l.foldl (fun acc x => if x ∈ acc then acc else acc ++ [x]) []

/-- Bag-of-words count vector of a token list over a vocabulary. -/
def countVec (vocab : List String) (tokens : List String) : List ℕ :=
  vocab.map (fun w => tokens.count w)

/-- Dot product of two count vectors. -/
def dotProd (a b : List ℕ) : ℕ :=
  ((a.zip b).map (fun t => t.1 * t.2)).sum

/-- Sum of squares of a count vector. -/
def sumSq (a : List ℕ) : ℕ :=
  (a.map (fun x => x * x)).sum

/-- Cosine similarity as computed by the external numeric library, modelled
from its documented behavior: rows with zero norm are left as zero by the
safe normalization, so the similarity is 0 whenever either vector is zero;
otherwise it is the dot product divided by the product of the norms, with
the square root left abstract. -/
def cosine_similarity (sqrtf : ℚ → ℚ) (a b : List ℕ) : ℚ :=
  if sumSq a = 0 ∨ sumSq b = 0 then 0
  else (dotProd a b : ℚ) / (sqrtf (sumSq a) * sqrtf (sumSq b))

/-- Embedding of `DataComparator.matchSimilarity`: fit the vectorizer on the
two raw texts (which fails with sklearn's empty-vocabulary `ValueError` when
no token occurs in either text), build the two count vectors, take the
cosine similarity, times 100, rounded to 2 places. -/
def matchSimilarity (sqrtf : ℚ → ℚ) (resume_data vacancy_data : String) :
    Except PyError ℚ :=
  let toks_resume := cvTokenize resume_data
  let toks_vacancy := cvTokenize vacancy_data
  let vocab := dedupStr (toks_resume ++ toks_vacancy)
  if vocab = [] then .error .valueError
  else .ok (round2 (cosine_similarity sqrtf
    (countVec vocab toks_resume) (countVec vocab toks_vacancy) * 100))

/-- Concrete whitespace tokenizer used to instantiate the abstract
collaborators in witnesses. -/
def ws_tokenize (s : String) : List String :=
  runsBy (fun c => !isPySpace c) s

/-- Concrete NLTK instance for witnesses: whitespace tokenization, every
token tagged as a common noun, small real stopword lists. -/
def sampleCtx : NLTK where
  word_tokenize := ws_tokenize
  pos_tag := fun token_list => token_list.map (fun t => (t, "NN"))
  stopwords_russian := ["и", "в", "не"]
  stopwords_english := ["the", "a", "for", "with", "and"]

/-- Concrete spacy instance for witnesses: whitespace tokenization, every
token tagged as a proper noun. -/
def sampleSpacy : Spacy where
  tokenize_tag := fun s => (ws_tokenize s).map (fun t => (t, "NNP"))
  stop_words := ["the", "a"]

/-! Helper lemmas about characters and lowercasing. -/

theorem charToNat_ofNat_valid (n : ℕ) (h : n < 55296) :
    (Char.ofNat n).toNat = n := by
  rw [Char.ofNat, dif_pos (Or.inl h)]
  rfl

theorem pyToLowerChar_toNat_latin (c : Char) (h : 65 ≤ c.toNat ∧ c.toNat ≤ 90) :
    (pyToLowerChar c).toNat = c.toNat + 32 := by
  rw [pyToLowerChar, if_pos h]
  exact charToNat_ofNat_valid _ (by omega)

theorem pyToLowerChar_toNat_cyrillic (c : Char)
    (h1 : ¬(65 ≤ c.toNat ∧ c.toNat ≤ 90)) (h2 : 1040 ≤ c.toNat ∧ c.toNat ≤ 1071) :
    (pyToLowerChar c).toNat = c.toNat + 32 := by
  rw [pyToLowerChar, if_neg h1, if_pos h2]
  exact charToNat_ofNat_valid _ (by omega)

theorem pyToLowerChar_idem (c : Char) :
    pyToLowerChar (pyToLowerChar c) = pyToLowerChar c := by
  by_cases h1 : 65 ≤ c.toNat ∧ c.toNat ≤ 90
  · have ht : (pyToLowerChar c).toNat = c.toNat + 32 := pyToLowerChar_toNat_latin c h1
    rw [pyToLowerChar, ht, if_neg (by omega), if_neg (by omega), if_neg (by omega)]
  · by_cases h2 : 1040 ≤ c.toNat ∧ c.toNat ≤ 1071
    · have ht : (pyToLowerChar c).toNat = c.toNat + 32 :=
        pyToLowerChar_toNat_cyrillic c h1 h2
      rw [pyToLowerChar, ht, if_neg (by omega), if_neg (by omega), if_neg (by omega)]
    · by_cases h3 : c.toNat = 1025
      · have ht : (pyToLowerChar c).toNat = 1105 := by
          rw [pyToLowerChar, if_neg h1, if_neg h2, if_pos h3]
          exact charToNat_ofNat_valid _ (by omega)
        rw [pyToLowerChar, ht, if_neg (by omega), if_neg (by omega), if_neg (by omega)]
      · have ht : pyToLowerChar c = c := by
          rw [pyToLowerChar, if_neg h1, if_neg h2, if_neg h3]
        rw [ht, pyToLowerChar, if_neg h1, if_neg h2, if_neg h3]

theorem str_lower_idem (s : String) : str_lower (str_lower s) = str_lower s := by
  unfold str_lower
  show String.mk ((s.data.map pyToLowerChar).map pyToLowerChar)
    = String.mk (s.data.map pyToLowerChar)
  rw [List.map_map]
  exact congrArg String.mk (List.map_congr_left fun c _ => pyToLowerChar_idem c)

/-! Helper lemmas about `uniqFrom` and `unique_tokens`. -/

theorem uniqFrom_congr (l : List String) : ∀ s t : List String,
    (∀ a, a ∈ s ↔ a ∈ t) → uniqFrom s l = uniqFrom t l := by
  induction l with
  | nil => intro s t _; rfl
  | cons x xs ih =>
    intro s t h
    by_cases hx : str_lower x ∈ s
    · rw [uniqFrom, uniqFrom, if_pos hx, if_pos ((h _).mp hx)]
      exact ih s t h
    · rw [uniqFrom, uniqFrom, if_neg hx, if_neg (fun c => hx ((h _).mpr c))]
      refine congrArg _ (ih _ _ fun a => ?_)
      simp only [List.mem_cons, h a]

theorem unique_tokens_foldl_eq (l : List String) : ∀ acc : List String,
    List.foldl
      (fun unique_token_list x =>
        if str_lower x ∈ unique_token_list then unique_token_list
        else unique_token_list ++ [str_lower x]) acc l
      = acc ++ uniqFrom acc l := by
  induction l with
  | nil => intro acc; simp [uniqFrom]
  | cons x xs ih =>
    intro acc
    rw [List.foldl_cons]
    by_cases hx : str_lower x ∈ acc
    · rw [if_pos hx, ih acc, uniqFrom, if_pos hx]
    · rw [if_neg hx, ih (acc ++ [str_lower x]), uniqFrom, if_neg hx]
      rw [uniqFrom_congr xs (acc ++ [str_lower x]) (str_lower x :: acc)
        (fun a => by simp [or_comm])]
      simp

theorem unique_tokens_eq (l : List String) : unique_tokens l = uniqFrom [] l := by
  have h := unique_tokens_foldl_eq l []
  simpa [unique_tokens] using h

theorem mem_uniqFrom (l : List String) : ∀ (seen : List String) (a : String),
    a ∈ uniqFrom seen l ↔ (a ∉ seen ∧ a ∈ l.map str_lower) := by
  induction l with
  | nil => intro seen a; simp [uniqFrom]
  | cons x xs ih =>
    intro seen a
    by_cases hx : str_lower x ∈ seen
    · rw [uniqFrom, if_pos hx, ih]
      simp only [List.map_cons, List.mem_cons]
      constructor
      · rintro ⟨h1, h2⟩; exact ⟨h1, Or.inr h2⟩
      · rintro ⟨h1, h2 | h2⟩
        · exact absurd (h2 ▸ hx) h1
        · exact ⟨h1, h2⟩
    · rw [uniqFrom, if_neg hx]
      simp only [List.map_cons, List.mem_cons, ih]
      constructor
      · rintro (rfl | ⟨h1, h2⟩)
        · exact ⟨hx, Or.inl rfl⟩
        · exact ⟨fun hs => h1 (Or.inr hs), Or.inr h2⟩
      · rintro ⟨h1, rfl | h2⟩
        · exact Or.inl rfl
        · by_cases he : a = str_lower x
          · exact Or.inl he
          · exact Or.inr ⟨fun hc => hc.elim he h1, h2⟩

theorem nodup_uniqFrom (l : List String) : ∀ seen : List String,
    (uniqFrom seen l).Nodup := by
  induction l with
  | nil => intro seen; simp [uniqFrom]
  | cons x xs ih =>
    intro seen
    by_cases hx : str_lower x ∈ seen
    · rw [uniqFrom, if_pos hx]; exact ih seen
    · rw [uniqFrom, if_neg hx]
      refine List.nodup_cons.mpr ⟨fun hmem => ?_, ih _⟩
      exact ((mem_uniqFrom xs _ _).mp hmem).1 (List.mem_cons_self _ _)

theorem lower_fixed_of_mem_uniqFrom (l seen : List String) (a : String)
    (h : a ∈ uniqFrom seen l) : str_lower a = a := by
  have hm := ((mem_uniqFrom l seen a).mp h).2
  rcases List.mem_map.mp hm with ⟨x, _, rfl⟩
  exact str_lower_idem x

theorem pairwise_indexOf_uniqFrom (l : List String) : ∀ seen : List String,
    (uniqFrom seen l).Pairwise
      (fun a b => (l.map str_lower).indexOf a < (l.map str_lower).indexOf b) := by
  induction l with
  | nil => intro seen; simp [uniqFrom]
  | cons x xs ih =>
    intro seen
    simp only [List.map_cons]
    by_cases hx : str_lower x ∈ seen
    · rw [uniqFrom, if_pos hx]
      refine List.Pairwise.imp_of_mem (fun {a b} ha hb hab => ?_) (ih seen)
      have hane : str_lower x ≠ a :=
        fun e => ((mem_uniqFrom xs seen a).mp ha).1 (e ▸ hx)
      have hbne : str_lower x ≠ b :=
        fun e => ((mem_uniqFrom xs seen b).mp hb).1 (e ▸ hx)
      rw [List.indexOf_cons_ne _ hane, List.indexOf_cons_ne _ hbne]
      omega
    · rw [uniqFrom, if_neg hx]
      refine List.pairwise_cons.mpr ⟨fun b hb => ?_, ?_⟩
      · have hbne : str_lower x ≠ b := fun e =>
          ((mem_uniqFrom xs _ b).mp hb).1 (e ▸ List.mem_cons_self _ _)
        rw [List.indexOf_cons_self, List.indexOf_cons_ne _ hbne]
        omega
      · refine List.Pairwise.imp_of_mem (fun {a b} ha hb hab => ?_) (ih _)
        have hane : str_lower x ≠ a := fun e =>
          ((mem_uniqFrom xs _ a).mp ha).1 (e ▸ List.mem_cons_self _ _)
        have hbne : str_lower x ≠ b := fun e =>
          ((mem_uniqFrom xs _ b).mp hb).1 (e ▸ List.mem_cons_self _ _)
        rw [List.indexOf_cons_ne _ hane, List.indexOf_cons_ne _ hbne]
        omega

/-! Helper lemmas about rounding. -/

theorem roundHalfEven_nonneg (q : ℚ) (h : 0 ≤ q) : 0 ≤ roundHalfEven q := by
  have hf : (0 : ℤ) ≤ ⌊q⌋ := Int.floor_nonneg.mpr h
  unfold roundHalfEven
  split
  · exact hf
  · split
    · omega
    · split <;> omega

theorem roundHalfEven_le (q : ℚ) (N : ℤ) (h : q ≤ (N : ℚ)) : roundHalfEven q ≤ N := by
  have hfl : ⌊q⌋ ≤ N := by
    have hm := Int.floor_mono h
    simpa using hm
  unfold roundHalfEven
  split
  · exact hfl
  · have h1 : ¬(q - ⌊q⌋ < 1 / 2) := by assumption
    push_neg at h1
    have hlt : (⌊q⌋ : ℚ) < (N : ℚ) := by linarith
    have hNi : ⌊q⌋ < N := by exact_mod_cast hlt
    split
    · omega
    · split <;> omega

theorem round2_nonneg (x : ℚ) (h : 0 ≤ x) : 0 ≤ round2 x := by
  unfold round2
  have h0 : (0 : ℤ) ≤ roundHalfEven (x * 100) :=
    roundHalfEven_nonneg _ (by positivity)
  have h1 : (0 : ℚ) ≤ (roundHalfEven (x * 100) : ℚ) := by exact_mod_cast h0
  exact div_nonneg h1 (by norm_num)

theorem round2_le_100 (x : ℚ) (h : x ≤ 100) : round2 x ≤ 100 := by
  unfold round2
  have h0 : roundHalfEven (x * 100) ≤ 10000 :=
    roundHalfEven_le _ 10000 (by push_cast; linarith)
  have h1 : (roundHalfEven (x * 100) : ℚ) ≤ 10000 := by exact_mod_cast h0
  rw [div_le_iff₀ (by norm_num : (0 : ℚ) < 100)]
  linarith

/-! Helper lemmas about the pipeline stages. -/

theorem mem_filter_token_tag (tagged : List (String × String)) (tags : List String)
    (x : String) (h : x ∈ filter_token_tag tagged tags) :
    ∃ t ∈ tagged, t.1 = x ∧ t.2 ∈ tags := by
  unfold filter_token_tag at h
  rcases List.mem_map.mp h with ⟨t, ht, rfl⟩
  rcases List.mem_filter.mp ht with ⟨ht1, ht2⟩
  exact ⟨t, ht1, rfl, by simpa using ht2⟩

theorem stopwords_removal_subset (ctx : NLTK) (token_list : List String)
    (lang : String) (res : List String)
    (h : nltk_stopwords_removal ctx token_list lang = .ok res) :
    ∀ w ∈ res, w ∈ token_list := by
  intro w hw
  unfold nltk_stopwords_removal at h
  split at h
  · injection h with h; subst h; exact (List.mem_filter.mp hw).1
  · split at h
    · injection h with h; subst h; exact (List.mem_filter.mp hw).1
    · split at h
      · injection h with h; subst h; exact absurd hw (List.not_mem_nil w)
      · exact Except.noConfusion h

theorem dedupStr_foldl_suffix (l : List String) : ∀ acc : List String,
    ∃ s : List String,
      List.foldl (fun acc x => if x ∈ acc then acc else acc ++ [x]) acc l
        = acc ++ s := by
  induction l with
  | nil => intro acc; exact ⟨[], by simp⟩
  | cons x xs ih =>
    intro acc
    rw [List.foldl_cons]
    by_cases hx : x ∈ acc
    · rw [if_pos hx]; exact ih acc
    · rw [if_neg hx]
      rcases ih (acc ++ [x]) with ⟨s, hs⟩
      exact ⟨[x] ++ s, by rw [hs, List.append_assoc]⟩

theorem dedupStr_ne_nil (l : List String) (h : l ≠ []) : dedupStr l ≠ [] := by
  cases l with
  | nil => exact absurd rfl h
  | cons x xs =>
    unfold dedupStr
    rw [List.foldl_cons, if_neg (List.not_mem_nil x)]
    rcases dedupStr_foldl_suffix xs ([] ++ [x]) with ⟨s, hs⟩
    rw [hs]
    simp

theorem sumSq_countVec_nil (vocab : List String) : sumSq (countVec vocab []) = 0 := by
  unfold countVec sumSq
  refine List.sum_eq_zero fun x hx => ?_
  rcases List.mem_map.mp hx with ⟨y, hy, rfl⟩
  rcases List.mem_map.mp hy with ⟨w, _, rfl⟩
  simp [List.count_nil]

/-! Claim C1: the code raises a division fault on an empty vacancy keyword
set instead of returning the 0.0 the specification mandates. -/

/-- C1: the specification defines the contract "if the vacancy text yields
an empty KeywordSet, `matchKeywords` returns 0.0 rather than raising a
division error".  The code has no guard: with `lang="en"` and an empty
vacancy text the vacancy keyword list is empty (first conjunct) and
`matchKeywords` evaluates `(0 / 0) * 100`, raising `ZeroDivisionError`
(second conjunct) instead of returning 0.0. -/
theorem matchKeywords_empty_vacancy_division_fault :
    nltk_keywords sampleCtx "" "en" = .ok [] ∧
    matchKeywords sampleCtx "python developer" "" "en" = .error .zeroDivision :=
  ⟨rfl, rfl⟩

/-! Claim C2: for a language outside `{"ru","en"}` the code raises no
`UnsupportedLanguageError`: normalization silently no-ops and the pipeline
then trips over the unbound local `stop_words`. -/

/-- C2: with `lang="de"`, `_clean_text` silently passes the text through
(first conjunct: no validation, no normalization, no error), and the
keyword pipeline then fails with the unbound-local `stop_words` fault of
`_nltk_stopwords_removal` (second conjunct) — no
`UnsupportedLanguageError` exists anywhere in the code. -/
theorem unsupported_language_no_validation :
    clean_text "Hello, world!" "de" = "Hello, world!" ∧
    nltk_keywords sampleCtx "Hello" "de" = .error .unboundLocal :=
  ⟨rfl, rfl⟩

/-! Claim C7: normalization keeps only the language's allow-list and turns
every `/` into a space. -/

/-- C7: every character of `clean_text text "en"` is a Latin letter, a
digit, or whitespace, and no `/` survives (in particular no punctuation
such as `,` or `!` remains); moreover the output is exactly the input
restricted to the allow-list with every `/` replaced by a space, so every
character outside the allow-list is removed and every `/` becomes `' '`
(not some other character, and not dropped).  The same holds for
`lang="ru"` with Cyrillic letters in place of Latin ones. -/
theorem clean_text_allowlist (text : String) :
    (∀ c ∈ (clean_text text "en").data,
      (isLatinLetter c ∨ isDigitChar c ∨ isPySpace c) ∧ c ≠ '/') ∧
    (clean_text text "en").data
      = (text.data.filter isEnAllowed).map (fun c => if c = '/' then ' ' else c) ∧
    (∀ c ∈ (clean_text text "ru").data,
      (isCyrillicLetter c ∨ isDigitChar c ∨ isPySpace c) ∧ c ≠ '/') ∧
    (clean_text text "ru").data
      = (text.data.filter isRuAllowed).map (fun c => if c = '/' then ' ' else c) := by
  have hen : (clean_text text "en").data
      = (text.data.filter isEnAllowed).map (fun c => if c = '/' then ' ' else c) := rfl
  have hru : (clean_text text "ru").data
      = (text.data.filter isRuAllowed).map (fun c => if c = '/' then ' ' else c) := rfl
  refine ⟨?_, ?_, ?_, ?_⟩
  · intro c hc
    rw [hen] at hc
    rcases List.mem_map.mp hc with ⟨d, hd, rfl⟩
    have hda : isEnAllowed d = true := (List.mem_filter.mp hd).2
    simp only [isEnAllowed, Bool.or_eq_true, beq_iff_eq] at hda
    by_cases hslash : d = '/'
    · rw [if_pos hslash]
      exact ⟨by decide, by decide⟩
    · rw [if_neg hslash]
      rcases hda with ((h | h) | h) | h
      · exact ⟨Or.inl h, hslash⟩
      · exact ⟨Or.inr (Or.inl h), hslash⟩
      · exact ⟨Or.inr (Or.inr h), hslash⟩
      · exact absurd h hslash
  · exact hen
  · intro c hc
    rw [hru] at hc
    rcases List.mem_map.mp hc with ⟨d, hd, rfl⟩
    have hda : isRuAllowed d = true := (List.mem_filter.mp hd).2
    simp only [isRuAllowed, Bool.or_eq_true, beq_iff_eq] at hda
    by_cases hslash : d = '/'
    · rw [if_pos hslash]
      exact ⟨by decide, by decide⟩
    · rw [if_neg hslash]
      rcases hda with ((h | h) | h) | h
      · exact ⟨Or.inl h, hslash⟩
      · exact ⟨Or.inr (Or.inl h), hslash⟩
      · exact ⟨Or.inr (Or.inr h), hslash⟩
      · exact absurd h hslash
  · exact hru

/-! Claim C9: for a language outside `{"ru","en"}` normalization is NOT the
identity: the unconditional `text.replace("/", " ")` still runs. -/

/-- C9 counterexample: with `lang="de"` the input `"a/b"` is changed to
`"a b"`, so the legacy behavior does not leave the text completely
unchanged. -/
theorem clean_text_unknown_lang_changes_slash :
    clean_text "a/b" "de" = "a b" ∧ clean_text "a/b" "de" ≠ "a/b" :=
  ⟨rfl, by decide⟩

/-- C9 amended: for every language outside `{"ru","en"}` normalization
removes no characters and performs no allow-list filtering, but it still
replaces every `/` with a space; texts containing no `/` are unchanged. -/
theorem clean_text_unknown_lang_slash_only (text lang : String)
    (h1 : lang ≠ "ru") (h2 : lang ≠ "en") :
    clean_text text lang
      = String.mk (text.data.map (fun c => if c = '/' then ' ' else c)) := by
  simp [clean_text, h1, h2]

/-- Witness for the amended C9 at a concrete language and text. -/
theorem clean_text_unknown_lang_slash_only_witness :
    clean_text "a/b c" "de"
      = String.mk ("a/b c".data.map (fun c => if c = '/' then ' ' else c)) :=
  clean_text_unknown_lang_slash_only "a/b c" "de" (by decide) (by decide)

/-! Claim C10: stopword removal runs before lowercasing, hence is
case-sensitive, and a capitalized stopword can reach the final KeywordSet
in lowercase form. -/

/-- C10: there is an NLTK instance and an input text for which the final
KeywordSet of the statistical pipeline contains a word that belongs to the
language's stopword list: the capitalized token `"The"` is compared against
the stopword set before lowercasing, survives, and is lowercased to
`"the"` only afterwards, inside `_unique_tokens`. -/
theorem stopword_removal_case_sensitive :
    ∃ (ctx : NLTK) (text : String) (K : List String),
      nltk_keywords ctx text "en" = .ok K ∧ ∃ w ∈ K, w ∈ ctx.stopwords_english :=
  ⟨sampleCtx, "The", ["the"], rfl, "the", by decide, by decide⟩

/-! Claim C4: the KeywordSet invariant. -/

/-- C4: whenever the NLTK pipeline reaches deduplication with token stream
`stream`, the produced KeywordSet has no duplicates (also case-insensitively),
every entry is lowercase, its entries are exactly the lowercased stream
tokens, and they appear in first-occurrence order of the stream (indices of
first occurrences are strictly increasing along the output). -/
theorem nltk_keywords_unique_lowercase_ordered (ctx : NLTK) (text lang : String)
    (stream : List String) (h : nltk_prelim ctx text lang = .ok stream) :
    ∃ K, nltk_keywords ctx text lang = .ok K ∧
      K.Nodup ∧
      K.Pairwise (fun a b => str_lower a ≠ str_lower b) ∧
      (∀ w ∈ K, str_lower w = w) ∧
      (∀ w, w ∈ K ↔ w ∈ stream.map str_lower) ∧
      K.Pairwise (fun a b =>
        (stream.map str_lower).indexOf a < (stream.map str_lower).indexOf b) := by
  refine ⟨unique_tokens stream, ?_, ?_, ?_, ?_, ?_, ?_⟩
  · unfold nltk_keywords
    rw [h]
  · rw [unique_tokens_eq]
    exact nodup_uniqFrom stream []
  · rw [unique_tokens_eq]
    refine List.Pairwise.imp_of_mem (fun {a b} ha hb hab => ?_) (nodup_uniqFrom stream [])
    rw [lower_fixed_of_mem_uniqFrom _ _ _ ha, lower_fixed_of_mem_uniqFrom _ _ _ hb]
    exact hab
  · rw [unique_tokens_eq]
    intro w hw
    exact lower_fixed_of_mem_uniqFrom _ _ _ hw
  · rw [unique_tokens_eq]
    intro w
    rw [mem_uniqFrom]
    simp
  · rw [unique_tokens_eq]
    exact pairwise_indexOf_uniqFrom stream []

/-- Witness for C4 at a concrete context and text (the pre-deduplication
stream is `["Python", "THE", "python", "Dev"]`; the stopword `"the"` was
removed, the capitalized `"THE"` was not). -/
theorem nltk_keywords_unique_lowercase_ordered_witness :
    ∃ K, nltk_keywords sampleCtx "Python THE the python Dev" "en" = .ok K ∧
      K.Nodup ∧
      K.Pairwise (fun a b => str_lower a ≠ str_lower b) ∧
      (∀ w ∈ K, str_lower w = w) ∧
      (∀ w, w ∈ K ↔ w ∈ ["Python", "THE", "python", "Dev"].map str_lower) ∧
      K.Pairwise (fun a b =>
        (["Python", "THE", "python", "Dev"].map str_lower).indexOf a
          < (["Python", "THE", "python", "Dev"].map str_lower).indexOf b) :=
  nltk_keywords_unique_lowercase_ordered sampleCtx "Python THE the python Dev" "en"
    ["Python", "THE", "python", "Dev"] rfl

/-! Claim C6: keyword extraction on the empty string. -/

/-- C6: for a tokenizer that yields no tokens on the empty string and a
tagger that tags nothing on no tokens (as NLTK's do), `nltk_keywords` on the
empty text returns the empty keyword list for both supported languages, and
raises no error. -/
theorem nltk_keywords_empty_text (ctx : NLTK) (lang : String)
    (h1 : ctx.word_tokenize "" = []) (h2 : ctx.pos_tag [] = [])
    (h3 : lang = "ru" ∨ lang = "en") :
    nltk_keywords ctx "" lang = .ok [] := by
  have hclean : clean_text "" lang = "" := by
    rcases h3 with rfl | rfl <;> rfl
  have hprelim : nltk_prelim ctx "" lang = .ok [] := by
    unfold nltk_prelim nltk_tagged
    rw [hclean, h1, h2]
    rcases h3 with rfl | rfl <;> rfl
  unfold nltk_keywords
  rw [hprelim]
  rfl

/-- Witness for C6 at the concrete context and `lang="ru"`. -/
theorem nltk_keywords_empty_text_witness :
    sampleCtx.word_tokenize "" = [] ∧ sampleCtx.pos_tag [] = [] ∧
    nltk_keywords sampleCtx "" "ru" = .ok [] :=
  ⟨rfl, rfl, nltk_keywords_empty_text sampleCtx "ru" rfl rfl (Or.inl rfl)⟩

/-! Claim C8: the two tag allow-lists. -/

theorem nltk_keywords_ok (ctx : NLTK) (data lang : String) (K : List String)
    (h : nltk_keywords ctx data lang = .ok K) :
    ∃ stream, nltk_prelim ctx data lang = .ok stream ∧ K = unique_tokens stream := by
  unfold nltk_keywords at h
  cases hp : nltk_prelim ctx data lang with
  | error e => rw [hp] at h; exact Except.noConfusion h
  | ok s =>
    rw [hp] at h
    injection h with h
    exact ⟨s, rfl, h.symm⟩

theorem mem_unique_tokens (l : List String) (w : String) (h : w ∈ unique_tokens l) :
    ∃ x ∈ l, str_lower x = w := by
  rw [unique_tokens_eq] at h
  have hm := ((mem_uniqFrom l [] w).mp h).2
  rcases List.mem_map.mp hm with ⟨x, hx, rfl⟩
  exact ⟨x, hx, rfl⟩

/-- C8: the statistical (NLTK) path filters its tagged tokens with the
allow-list `["NNP", "NN", "VBP", "JJ"]` and the linguistic-model (spacy)
path with the strictly narrower allow-list `["NNP"]`: every keyword the
NLTK path outputs is the lowercase form of some tagged token whose tag is
among `NNP`, `NN`, `VBP`, `JJ`, and every keyword the spacy path outputs is
the lowercase form of some tagged token whose tag is exactly `NNP` — a
token with any other tag never reaches the respective output. -/
theorem tag_allowlists_nltk_vs_spacy (ctx : NLTK) (ru_nlp en_nlp : Spacy)
    (d1 d2 lang1 lang2 : String) (K1 K2 : List String)
    (h1 : nltk_keywords ctx d1 lang1 = .ok K1)
    (h2 : spacy_keywords ru_nlp en_nlp d2 lang2 = .ok K2) :
    (∀ w ∈ K1, ∃ t ∈ nltk_tagged ctx d1 lang1,
      str_lower t.1 = w ∧ t.2 ∈ ["NNP", "NN", "VBP", "JJ"]) ∧
    (∀ w ∈ K2, ∃ t ∈ spacy_tagged ru_nlp en_nlp d2 lang2,
      str_lower t.1 = w ∧ t.2 = "NNP") := by
  constructor
  · intro w hw
    rcases nltk_keywords_ok ctx d1 lang1 K1 h1 with ⟨stream, hs, rfl⟩
    rcases mem_unique_tokens stream w hw with ⟨x, hx, rfl⟩
    have hxf : x ∈ filter_token_tag (nltk_tagged ctx d1 lang1) ["NNP", "NN", "VBP", "JJ"] :=
      stopwords_removal_subset ctx _ lang1 stream hs x hx
    rcases mem_filter_token_tag _ _ _ hxf with ⟨t, ht, htx, htag⟩
    exact ⟨t, ht, by rw [htx], htag⟩
  · intro w hw
    simp only [spacy_keywords] at h2
    split at h2
    · injection h2 with h2
      subst h2
      rcases mem_unique_tokens _ w hw with ⟨x, hx, rfl⟩
      have hxf : x ∈ filter_token_tag (spacy_tagged ru_nlp en_nlp d2 lang2) ["NNP"] :=
        (List.mem_filter.mp hx).1
      rcases mem_filter_token_tag _ _ _ hxf with ⟨t, ht, htx, htag⟩
      refine ⟨t, ht, by rw [htx], ?_⟩
      simpa using htag
    · exact Except.noConfusion h2

/-- Witness for C8 at concrete contexts and texts. -/
theorem tag_allowlists_nltk_vs_spacy_witness :
    (∀ w ∈ ["python", "dev"], ∃ t ∈ nltk_tagged sampleCtx "Python dev" "en",
      str_lower t.1 = w ∧ t.2 ∈ ["NNP", "NN", "VBP", "JJ"]) ∧
    (∀ w ∈ ["python", "dev"], ∃ t ∈ spacy_tagged sampleSpacy sampleSpacy "Python dev" "en",
      str_lower t.1 = w ∧ t.2 = "NNP") :=
  tag_allowlists_nltk_vs_spacy sampleCtx sampleSpacy sampleSpacy "Python dev" "Python dev"
    "en" "en" ["python", "dev"] ["python", "dev"] rfl rfl

/-! Claim C5: range of `matchKeywords` and self-comparison. -/

/-- C5 counterexample: for the pair of equal texts `("", "")` with
`lang="en"` the vacancy KeywordSet is empty, so `matchKeywords` raises
`ZeroDivisionError` — it neither returns a value in `[0, 100]` nor
returns 100.0 although the two texts are equal. -/
theorem matchKeywords_equal_empty_texts_fault :
    matchKeywords sampleCtx "" "" "en" = .error .zeroDivision ∧
    matchKeywords sampleCtx "" "" "en" ≠ .ok 100 := by
  refine ⟨rfl, fun h => ?_⟩
  have h2 : (Except.error PyError.zeroDivision : Except PyError ℚ) = Except.ok 100 := h
  exact Except.noConfusion h2

/-- C5 amended: provided both keyword extractions succeed and the vacancy
KeywordSet is non-empty, `matchKeywords` returns a value in `[0, 100]`, and
when the two texts are equal it returns exactly 100. -/
theorem matchKeywords_range_and_self (ctx : NLTK) (r v lang : String)
    (Kr Kv : List String)
    (hr : nltk_keywords ctx r lang = .ok Kr)
    (hv : nltk_keywords ctx v lang = .ok Kv)
    (hne : Kv ≠ []) :
    (∃ q, matchKeywords ctx r v lang = .ok q ∧ 0 ≤ q ∧ q ≤ 100) ∧
    (r = v → matchKeywords ctx r v lang = .ok 100) := by
  have hn : Kv.length ≠ 0 := fun h0 => hne (List.length_eq_zero.mp h0)
  have hmain : matchKeywords ctx r v lang
      = .ok (round2
          (((Kv.filter (fun w => w ∈ Kr)).length : ℚ) / (Kv.length : ℚ) * 100)) := by
    unfold matchKeywords
    rw [hr, hv]
    simp [hn]
  have hlenpos : (0 : ℚ) < (Kv.length : ℚ) := by
    exact_mod_cast Nat.pos_of_ne_zero hn
  constructor
  · refine ⟨_, hmain, ?_, ?_⟩
    · apply round2_nonneg
      have hnum : (0 : ℚ) ≤ ((Kv.filter (fun w => w ∈ Kr)).length : ℚ) :=
        Nat.cast_nonneg _
      have hdiv : (0 : ℚ) ≤ ((Kv.filter (fun w => w ∈ Kr)).length : ℚ) / (Kv.length : ℚ) :=
        div_nonneg hnum (le_of_lt hlenpos)
      linarith
    · apply round2_le_100
      have hc : (Kv.filter (fun w => w ∈ Kr)).length ≤ Kv.length :=
        List.length_filter_le _ _
      have hq : ((Kv.filter (fun w => w ∈ Kr)).length : ℚ) / (Kv.length : ℚ) ≤ 1 := by
        rw [div_le_one hlenpos]
        exact_mod_cast hc
      linarith
  · intro hrv
    subst hrv
    have hKK : Kr = Kv := by
      rw [hr] at hv
      injection hv
    subst hKK
    rw [hmain]
    have hfilter : Kr.filter (fun w => w ∈ Kr) = Kr :=
      List.filter_eq_self.mpr fun a ha => by simpa using ha
    rw [hfilter]
    have hq0 : ((Kr.length : ℚ)) ≠ 0 := ne_of_gt hlenpos
    rw [div_self hq0, one_mul]
    norm_num [round2, roundHalfEven]

/-- Witness for the amended C5 at a concrete context and equal texts. -/
theorem matchKeywords_range_and_self_witness :
    (∃ q, matchKeywords sampleCtx "Python" "Python" "en" = .ok q ∧ 0 ≤ q ∧ q ≤ 100) ∧
    ("Python" = "Python" → matchKeywords sampleCtx "Python" "Python" "en" = .ok 100) :=
  matchKeywords_range_and_self sampleCtx "Python" "Python" "en" ["python"] ["python"]
    rfl rfl (by decide)

/-! Claim C3: `matchSimilarity` on empty or zero-vector inputs. -/

/-- C3 counterexample: for the pair of empty texts the fitted vocabulary is
empty and the vectorizer raises its empty-vocabulary `ValueError`, so
`matchSimilarity` does not return 0.0 although both texts are empty. -/
theorem matchSimilarity_both_empty_fault :
    matchSimilarity (fun _ => 0) "" "" = .error .valueError ∧
    matchSimilarity (fun _ => 0) "" "" ≠ .ok 0 := by
  refine ⟨rfl, fun h => ?_⟩
  have h2 : (Except.error PyError.valueError : Except PyError ℚ) = Except.ok 0 := h
  exact Except.noConfusion h2

/-- C3 amended: when one text yields no vectorizer tokens (in particular
when it is empty, or when every char sequence is below the token length
threshold, giving a zero count vector) while the other text yields at least
one token, the zero row is left as zero by the safe normalization and
`matchSimilarity` returns 0.0 rather than propagating a numeric fault. -/
theorem matchSimilarity_zero_vector (sqrtf : ℚ → ℚ) (d1 d2 : String)
    (h : (cvTokenize d1 = [] ∧ cvTokenize d2 ≠ []) ∨
      (cvTokenize d2 = [] ∧ cvTokenize d1 ≠ [])) :
    matchSimilarity sqrtf d1 d2 = .ok 0 := by
  simp only [matchSimilarity]
  have hvocab : dedupStr (cvTokenize d1 ++ cvTokenize d2) ≠ [] := by
    rcases h with ⟨h1, h2⟩ | ⟨h1, h2⟩
    · exact dedupStr_ne_nil _ (by simp [h1, h2])
    · exact dedupStr_ne_nil _ (by simp [h1, h2])
  rw [if_neg hvocab]
  have hcos : cosine_similarity sqrtf
      (countVec (dedupStr (cvTokenize d1 ++ cvTokenize d2)) (cvTokenize d1))
      (countVec (dedupStr (cvTokenize d1 ++ cvTokenize d2)) (cvTokenize d2)) = 0 := by
    unfold cosine_similarity
    rcases h with ⟨h1, _⟩ | ⟨h1, _⟩
    · rw [if_pos (Or.inl (by rw [h1]; exact sumSq_countVec_nil _))]
    · rw [if_pos (Or.inr (by rw [h1]; exact sumSq_countVec_nil _))]
  rw [hcos]
  norm_num [round2, roundHalfEven]

/-- Witness for the amended C3: empty resume text against a non-empty
vacancy text. -/
theorem matchSimilarity_zero_vector_witness :
    matchSimilarity (fun _ => 0) "" "hello world" = .ok 0 :=
  matchSimilarity_zero_vector (fun _ => 0) "" "hello world" (Or.inl ⟨rfl, by decide⟩)
